import Mathlib

/-!
# Verification of the gowatch supervision engine

Shallow embedding of the repository's supervision engine
(`src/watcher/watcher.go`: `Run`, `watcher.watch`, `watcher.start`,
`watcher.restart`, `watcher.stop`, `watcher.build`, `watcher.startBinary`,
`isOutputFlag`) and of the file-set resolver of `src/watcher2/watcher2.go`
(`getFiles`, `uniq`, `getUniqueFiles`).

The supervisor owns one mutable cell `w.cmd : *exec.Cmd` and a buffered
(capacity 1) channel `w.exitChan` to which a background waiter goroutine pushes
the result of `cmd.Wait()`.  We embed this as a state record:

* `cmd`     — the supervisor's `w.cmd` field (handle ids are `Nat`);
* `alive`   — handles of child processes that are running in the OS and whose
  waiter has not yet pushed an exit result;
* `pending` — exit results pushed by a waiter and not yet received by the
  supervisor (the channel buffer together with any blocked senders, in FIFO
  order);
* `ctxDone` — whether the outer context has been cancelled;
* `initErr` — the `err` variable of `watcher.watch`, which after startup
  permanently holds the result of the initial `w.start(ctx)` call (every later
  assignment in the loop body shadows it with `:=`).

Nondeterminism of the environment (which select arm fires, whether `go build`
or `cmd.Start` succeed, the result the child exits with, signal delivery)
is passed in explicitly as oracle values; each loop iteration of
`watcher.watch` is one `step`.  Each step records the externally visible
effects (callbacks, log lines, signals, build and spawn attempts) as a list of
`Action`s; `Action.spawn` additionally records how many earlier handles were
still unobserved at the moment `cmd.Start` succeeded.  Blocking forever is
modelled by the explicit outcome `StepRes.blocked`; liveness of the waits
inside `stop` (the interrupted child eventually exiting, or cancellation
firing) is presented as the two oracle outcomes of `StopWaitO`.
-/

namespace GoWatch

/-- Result of `cmd.Wait()` for a supervised child: `success` is a `nil` error,
`exitError` an `*exec.ExitError` (non-zero exit or killed by a signal),
`waitError`
any other wait failure. -/
inductive ExitResult where
  | success
  | exitError
  | waitError
deriving DecidableEq, Repr

/-- The distinguishable errors produced by the engine. -/
inductive SupError where
  | cancelled
  | joined (r : ExitResult)
  | signalErr
  | waitErr
  | buildErr
  | spawnErr
  | newWatcherErr
  | addErr (f : String)
deriving DecidableEq, Repr

/-- `errors.Join(<-w.exitChan, ctx.Err())` from `watcher.watch`: a `nil` exit
result leaves just the cancellation error, otherwise both are joined. -/
def joinErr : ExitResult → SupError
  | .success => .cancelled
  | r => .joined r

/-- Whether an error is a `StopError` in the spec's taxonomy: a
signal-delivery failure (`process.Interrupt: ...`) or a non-`ExitError` wait
failure (`process.Wait: ...`). -/
def SupError.isStop : SupError → Bool
  | .signalErr => true
  | .waitErr => true
  | _ => false

/-- Externally visible effects of the engine, in program order. -/
inductive Action where
  | logModified (p : String)
  | onFileChange (p : String)
  | onProcessStart
  | onProcessExitErr (e : SupError)
  | onProcessExitRes (r : ExitResult)
  | logStartErr (e : SupError)
  | logRestartErr (e : SupError)
  | logWatcherErr
  | logExited (r : ExitResult)
  | signal (h : Nat)
  | buildAttempt
  | spawn (h : Nat) (unobservedAtSpawn : Nat)
deriving DecidableEq, Repr

/-- The supervisor state, as described in the file header. -/
structure SupState where
  cmd : Option Nat
  alive : List Nat
  pending : List (Nat × ExitResult)
  nextId : Nat
  ctxDone : Bool
  initErr : Option SupError
deriving DecidableEq, Repr

/-- Number of started ProcessHandles whose exit notification has not yet been
observed (received from `w.exitChan`) by the supervisor. -/
def unobserved (s : SupState) : Nat := s.alive.length + s.pending.length

/-- Outcome of the `select` inside `watcher.stop` after the interrupt was
delivered: either the exit notification arrives (with result `r` if the
channel buffer was empty and it is this child's own exit), or `ctx.Done()`
is ready first. -/
inductive StopWaitO where
  | exitArrives (r : ExitResult)
  | ctxCancel
deriving DecidableEq, Repr

/-- Oracle for one call of `watcher.stop`: whether `Process.Signal` succeeds
when the target is still running, and the outcome of the wait. -/
structure StopO where
  sigOk : Bool
  wait : StopWaitO
deriving DecidableEq, Repr

/-- Oracle for one `build` + `startBinary` sequence: whether `go build`
succeeds and whether `cmd.Start` succeeds. -/
structure StartO where
  buildOk : Bool
  spawnOk : Bool
deriving DecidableEq, Repr

/-- Oracle for one call of `watcher.restart`. -/
structure RestartO where
  stop : StopO
  start : StartO
deriving DecidableEq, Repr

/-- `watcher.stop` (src/watcher/watcher.go:177-198).  With `w.cmd == nil` it
returns immediately.  Otherwise `Process.Signal(os.Interrupt)` fails exactly
when the process has already been waited for (it is no longer in `alive`) or
the oracle says so; a failure is returned without consuming anything.  After a
delivered signal the function blocks in a `select`: if `ctx.Done()` wins, the
context error is returned and nothing is consumed; if the exit notification
wins, the supervisor receives the oldest pending message (the buffered one if
any, else this child's own exit result `r`), returns a wait error for a
non-`ExitError` result (leaving `w.cmd` set), and otherwise clears `w.cmd`
and returns success. -/
def stop (s : SupState) (o : StopO) : Except SupError Unit × SupState × List Action :=
  match s.cmd with
  | none => (.ok (), s, [])
  | some h =>
    if h ∈ s.alive ∧ o.sigOk = true then
      match o.wait with
      | .ctxCancel => (.error .cancelled, s, [.signal h])
      | .exitArrives r =>
        match s.pending with
        | (_, rg) :: rest =>
          if rg = .waitError then
            (.error .waitErr, { s with pending := rest }, [.signal h])
          else
            (.ok (), { s with pending := rest, cmd := none }, [.signal h])
        | [] =>
          if r = .waitError then
            (.error .waitErr, { s with alive := s.alive.erase h }, [.signal h])
          else
            (.ok (), { s with alive := s.alive.erase h, cmd := none }, [.signal h])
    else (.error .signalErr, s, [])

/-- `watcher.startBinary` (src/watcher/watcher.go:213-233): on success a fresh
handle is created, stored into `w.cmd`, and its waiter goroutine begins
running; on failure `w.cmd` is left unchanged... the error is returned.  The
recorded `spawn` action carries the number of unobserved handles at the moment
of the spawn. -/
def startBinary (s : SupState) (o : StartO) : Except SupError Unit × SupState × List Action :=
  if o.spawnOk then
    (.ok (),
      { s with cmd := some s.nextId, alive := s.nextId :: s.alive, nextId := s.nextId + 1 },
      [.spawn s.nextId (unobserved s)])
  else (.error .spawnErr, s, [])

/-- `watcher.start` (src/watcher/watcher.go:159-165): `build`, then the
`OnProcessStart` callback, then `startBinary`. -/
def start (s : SupState) (o : StartO) : Except SupError Unit × SupState × List Action :=
  if o.buildOk then
    match startBinary s o with
    | (r, s', a) => (r, s', .buildAttempt :: .onProcessStart :: a)
  else (.error .buildErr, s, [.buildAttempt])

/-- `watcher.restart` (src/watcher/watcher.go:167-175): `stop`, then `start`;
the first error aborts the sequence. -/
def restart (s : SupState) (o : RestartO) : Except SupError Unit × SupState × List Action :=
  match stop s o.stop with
  | (.ok _, s', a) =>
    match start s' o.start with
    | (r, s'', a') => (r, s'', a ++ a')
  | (.error e, s', a) => (.error e, s', a)

/-- Oracle for the `<-w.exitChan` receive in the `ctx.Done()` arm when a child
is still running: either that child exits (interrupted via `cmd.Cancel`), or
it never does. -/
inductive CancelO where
  | exitArrives (r : ExitResult)
  | neverExits
deriving DecidableEq, Repr

/-- An event the supervisor loop can react to, together with the oracle values
consumed while handling it.  `envExit` is the environment transition in which
a running child exits on its own and its waiter pushes the result onto
`w.exitChan`; `envCancel` is the outer context being cancelled (which makes
`exec` invoke `cmd.Cancel`, i.e. `Signal(os.Interrupt)`, on every running
`CommandContext` child).  The `sel*` events are the four arms of the `select`
in `watcher.watch` (src/watcher/watcher.go:133-156); `selOther` is a
notification whose `Op` is not a write. -/
inductive Ev where
  | envExit (r : ExitResult)
  | envCancel
  | selWrite (p : String) (o : RestartO)
  | selOther (p : String)
  | selErr
  | selExit
  | selCancel (o : CancelO)
deriving DecidableEq, Repr

/-- Result of one loop iteration: continue with a new state, return from
`watcher.watch` with an error, or block forever. -/
inductive StepRes where
  | next (s : SupState) (acts : List Action)
  | term (e : SupError) (acts : List Action)
  | blocked (acts : List Action)
deriving DecidableEq, Repr

/-- The actions emitted by a step, whatever its outcome. -/
def StepRes.acts : StepRes → List Action
  | .next _ a => a
  | .term _ a => a
  | .blocked a => a

/-- Whether the step returned from `watcher.watch`. -/
def StepRes.isTerm : StepRes → Bool
  | .term _ _ => true
  | _ => false

/-- The `case <-ctx.Done()` arm (src/watcher/watcher.go:135-139): if the
initial `w.start` had failed, its error (still held by `err`) is returned
as-is; otherwise the arm performs `errors.Join(<-w.exitChan, ctx.Err())`.
That receive completes with a buffered message if one is pending, or with the
running child's eventual exit; with no pending message and no running child,
no goroutine can ever send and the receive blocks forever. -/
def cancelArm (s : SupState) (o : CancelO) : StepRes :=
  match s.initErr with
  | some e => .term e []
  | none =>
    match s.pending with
    | (_, r) :: _ => .term (joinErr r) []
    | [] =>
      match s.alive with
      | [] => .blocked []
      | _ :: _ =>
        match o with
        | .exitArrives r => .term (joinErr r) []
        | .neverExits => .blocked []

/-- One iteration of the supervisor loop of `watcher.watch`
(src/watcher/watcher.go:133-156), or one environment transition. -/
def step (s : SupState) : Ev → StepRes
  | .envExit r =>
    match s.alive with
    | [] => .next s []
    | h :: rest => .next { s with alive := rest, pending := s.pending ++ [(h, r)] } []
  | .envCancel => .next { s with ctxDone := true } (s.alive.map .signal)
  | .selWrite p o =>
    match restart s o with
    | (.ok _, s', a) => .next s' (.logModified p :: .onFileChange p :: a)
    | (.error e, s', a) =>
      .next s' (.logModified p :: .onFileChange p ::
        (a ++ [.onProcessExitErr e, .logRestartErr e]))
  | .selOther _ => .next s []
  | .selErr => .next s [.logWatcherErr]
  | .selExit =>
    match s.pending with
    | [] => .next s []
    | (_, r) :: rest => .next { s with pending := rest } [.onProcessExitRes r, .logExited r]
  | .selCancel o => cancelArm s o

/-- Which events can actually occur in a state: a spontaneous exit needs a
running child, the exit-channel arm needs a pending message, the `ctx.Done()`
arms need cancellation to have fired (at the top level, or inside `stop`'s
wait), and cancellation itself fires once. -/
def enabled (s : SupState) : Ev → Bool
  | .envExit _ => !s.alive.isEmpty
  | .envCancel => !s.ctxDone
  | .selWrite _ o => !(o.stop.wait == .ctxCancel) || s.ctxDone
  | .selOther _ => true
  | .selErr => true
  | .selExit => !s.pending.isEmpty
  | .selCancel _ => s.ctxDone

/-- Session-wide oracle for `watcher.watch`'s prelude: whether
`fsnotify.NewWatcher` succeeds, which `watcher.Add` calls succeed, and the
oracle of the initial `w.start`. -/
structure WatchO where
  newOk : Bool
  addOk : String → Bool
  init : StartO

/-- How `watcher.watch` gets past its prelude: an aborted session returns an
error before any process is started, otherwise the supervisor enters the loop
in state `s` having emitted `acts`. -/
inductive WatchInit where
  | aborted (e : SupError)
  | loop (s : SupState) (acts : List Action)
deriving Repr

/-- The `for _, f := range files { watcher.Add(f) }` loop of `watcher.watch`
(src/watcher/watcher.go:120-125): the first failing registration aborts. -/
def addAll (ok : String → Bool) : List String → Except SupError Unit
  | [] => .ok ()
  | f :: rest => if ok f then addAll ok rest else .error (.addErr f)

/-- State of a fresh `watcher` value as built by `Run`
(src/watcher/watcher.go:99-103). -/
def initState : SupState :=
  { cmd := none, alive := [], pending := [], nextId := 0, ctxDone := false, initErr := none }

/-- The prelude of `watcher.watch` (src/watcher/watcher.go:114-131):
`fsnotify.NewWatcher`, registration of every path, then the initial
`w.start(ctx)` whose failure is reported via `OnProcessExit` and logged and
remembered in the loop's `err` variable, before the event loop is entered. -/
def watchInit (files : List String) (o : WatchO) : WatchInit :=
  if o.newOk then
    match addAll o.addOk files with
    | .error e => .aborted e
    | .ok _ =>
      match start initState o.init with
      | (.ok _, s, a) => .loop s a
      | (.error e, s, a) =>
        .loop { s with initErr := some e } (a ++ [.onProcessExitErr e, .logStartErr e])
  else .aborted .newWatcherErr

/-- `isOutputFlag` (src/watcher/watcher.go:235-237); `strings.HasPrefix` is
embedded as a prefix test on the character lists. -/
def isOutputFlag (f : String) : Bool :=
  f == "-o" || f == "--o" || "-o=".data.isPrefixOf f.data || "--o=".data.isPrefixOf f.data

/-- Result of the session entry point. -/
inductive RunRes where
  | configError
  | watch (w : WatchInit)
deriving Repr

/-- The control skeleton of `Run` (src/watcher/watcher.go:36-104): the build
flags are scanned first and an output flag aborts with a configuration error
before the file set is used, any watch is registered, or any subprocess is
spawned; otherwise the session proceeds into `watcher.watch` on the resolved
file list. -/
def Run (buildFlags : List String) (files : List String) (o : WatchO) : RunRes :=
  if buildFlags.any isOutputFlag then .configError
  else .watch (watchInit files o)

/-- States the supervisor loop can be in: an entry state of the loop for some
session, or any state reached from one by an enabled event. -/
inductive Reachable : SupState → Prop where
  | init (files : List String) (o : WatchO) (s : SupState) (a : List Action) :
      watchInit files o = .loop s a → Reachable s
  | step (s : SupState) (e : Ev) (s' : SupState) (a : List Action) :
      Reachable s → enabled s e = true → step s e = .next s' a → Reachable s'

/-- The inductive invariant: never more than one unobserved handle, and when
`w.cmd` is `nil` there is none at all. -/
def Inv (s : SupState) : Prop :=
  unobserved s ≤ 1 ∧ (s.cmd = none → unobserved s = 0)

/-- Exhaustive description of `watcher.stop`: the no-handle shortcut, the
signal-delivery failure, the cancellation-won wait, and the two
exit-notification receptions (buffered message vs. this child's own exit),
each split on whether the received result was a non-`ExitError` wait
failure. -/
theorem stop_cases (s : SupState) (o : StopO) :
    (s.cmd = none ∧ stop s o = (.ok (), s, [])) ∨
    (∃ h, s.cmd = some h ∧ ¬(h ∈ s.alive ∧ o.sigOk = true) ∧
      stop s o = (.error .signalErr, s, [])) ∨
    (∃ h, s.cmd = some h ∧ h ∈ s.alive ∧ o.sigOk = true ∧ o.wait = .ctxCancel ∧
      stop s o = (.error .cancelled, s, [.signal h])) ∨
    (∃ h r g rg rest, s.cmd = some h ∧ h ∈ s.alive ∧ o.sigOk = true ∧
      o.wait = .exitArrives r ∧ s.pending = (g, rg) :: rest ∧
      ((rg = .waitError ∧
          stop s o = (.error .waitErr, { s with pending := rest }, [.signal h])) ∨
        (rg ≠ .waitError ∧
          stop s o = (.ok (), { s with pending := rest, cmd := none }, [.signal h])))) ∨
    (∃ h r, s.cmd = some h ∧ h ∈ s.alive ∧ o.sigOk = true ∧
      o.wait = .exitArrives r ∧ s.pending = [] ∧
      ((r = .waitError ∧
          stop s o = (.error .waitErr, { s with alive := s.alive.erase h }, [.signal h])) ∨
        (r ≠ .waitError ∧
          stop s o =
            (.ok (), { s with alive := s.alive.erase h, cmd := none }, [.signal h])))) := by
  rcases hcmd : s.cmd with _ | h
  · exact .inl ⟨rfl, by simp [stop, hcmd]⟩
  · by_cases hc : h ∈ s.alive ∧ o.sigOk = true
    · rcases hw : o.wait with r | _
      · rcases hp : s.pending with _ | ⟨⟨g, rg⟩, rest⟩
        · by_cases hr : r = .waitError
          · exact .inr (.inr (.inr (.inr ⟨h, r, rfl, hc.1, hc.2, rfl, rfl,
              .inl ⟨hr, by simp [stop, hcmd, hc, hw, hp, hr]⟩⟩)))
          · exact .inr (.inr (.inr (.inr ⟨h, r, rfl, hc.1, hc.2, rfl, rfl,
              .inr ⟨hr, by simp [stop, hcmd, hc, hw, hp, hr]⟩⟩)))
        · by_cases hr : rg = .waitError
          · exact .inr (.inr (.inr (.inl ⟨h, r, g, rg, rest, rfl, hc.1, hc.2, rfl, rfl,
              .inl ⟨hr, by simp [stop, hcmd, hc, hw, hp, hr]⟩⟩)))
          · exact .inr (.inr (.inr (.inl ⟨h, r, g, rg, rest, rfl, hc.1, hc.2, rfl, rfl,
              .inr ⟨hr, by simp [stop, hcmd, hc, hw, hp, hr]⟩⟩)))
      · exact .inr (.inr (.inl ⟨h, rfl, hc.1, hc.2, rfl, by simp [stop, hcmd, hc, hw]⟩))
    · exact .inr (.inl ⟨h, rfl, hc, by simp [stop, hcmd, hc]⟩)

/-- `stop` never records a spawn. -/
theorem stop_no_spawn (s : SupState) (o : StopO) (hn n : Nat) :
    Action.spawn hn n ∉ (stop s o).2.2 := by
  rcases stop_cases s o with ⟨_, he⟩ | ⟨h, _, _, he⟩ | ⟨h, _, _, _, _, he⟩
    | ⟨h, r, g, rg, rest, _, _, _, _, _, ⟨_, he⟩ | ⟨_, he⟩⟩
    | ⟨h, r, _, _, _, _, _, ⟨_, he⟩ | ⟨_, he⟩⟩ <;> simp [he]

/-- Every spawn recorded by `start` is recorded with the unobserved count of
the state `start` was called in. -/
theorem start_spawn (s : SupState) (o : StartO) (hn n : Nat)
    (hmem : Action.spawn hn n ∈ (start s o).2.2) : n = unobserved s := by
  unfold start startBinary at hmem
  by_cases hb : o.buildOk <;> by_cases hsp : o.spawnOk <;>
    simp [hb, hsp] at hmem
  exact hmem.2

/-- When `stop` succeeds, no started handle is left unobserved (given the
invariant): either there was no handle, or the one live handle's exit was
just consumed. -/
theorem stop_ok_unobserved (s : SupState) (o : StopO) (hInv : Inv s)
    (hok : (stop s o).1 = .ok ()) : unobserved (stop s o).2.1 = 0 := by
  obtain ⟨h1, h2⟩ := hInv
  rcases stop_cases s o with ⟨hc, he⟩ | ⟨h, hc, _, he⟩ | ⟨h, hc, _, _, _, he⟩
    | ⟨h, r, g, rg, rest, hc, hm, _, _, hp, ⟨_, he⟩ | ⟨_, he⟩⟩
    | ⟨h, r, hc, hm, _, _, hp, ⟨_, he⟩ | ⟨_, he⟩⟩
  · rw [he]; exact h2 hc
  · rw [he] at hok; simp at hok
  · rw [he] at hok; simp at hok
  · rw [he] at hok; simp at hok
  · exfalso
    have hpos := List.length_pos_of_mem hm
    unfold unobserved at h1
    rw [hp] at h1
    simp at h1
    omega
  · rw [he] at hok; simp at hok
  · rw [he]
    unfold unobserved at h1 ⊢
    rw [hp] at h1 ⊢
    have hlen := List.length_erase_of_mem hm
    have hpos := List.length_pos_of_mem hm
    simp only [List.length_nil, Nat.add_zero] at h1 ⊢
    omega

/-- `stop` preserves the invariant. -/
theorem Inv_stop (s : SupState) (o : StopO) (hInv : Inv s) :
    Inv (stop s o).2.1 := by
  obtain ⟨h1, h2⟩ := hInv
  rcases stop_cases s o with ⟨hc, he⟩ | ⟨h, hc, _, he⟩ | ⟨h, hc, _, _, _, he⟩
    | ⟨h, r, g, rg, rest, hc, hm, _, _, hp, ⟨_, he⟩ | ⟨_, he⟩⟩
    | ⟨h, r, hc, hm, _, _, hp, ⟨_, he⟩ | ⟨_, he⟩⟩ <;> rw [he]
  · exact ⟨h1, h2⟩
  · exact ⟨h1, h2⟩
  · exact ⟨h1, h2⟩
  · refine ⟨?_, ?_⟩
    · unfold unobserved at h1 ⊢
      rw [hp] at h1
      simp only [List.length_cons] at h1 ⊢
      omega
    · intro hnone
      simp only at hnone
      rw [hc] at hnone
      cases hnone
  · exfalso
    have hpos := List.length_pos_of_mem hm
    unfold unobserved at h1
    rw [hp] at h1
    simp at h1
    omega
  · refine ⟨?_, ?_⟩
    · unfold unobserved at h1 ⊢
      have hle := List.length_erase_le h s.alive
      simp only at *
      omega
    · intro hnone
      simp only at hnone
      rw [hc] at hnone
      cases hnone
  · have hlen := List.length_erase_of_mem hm
    have hpos := List.length_pos_of_mem hm
    refine ⟨?_, fun _ => ?_⟩ <;>
    · unfold unobserved at h1 ⊢
      rw [hp] at h1 ⊢
      simp only [List.length_nil, Nat.add_zero] at h1 ⊢
      omega

/-- Starting from a state with no unobserved handle, `start` preserves the
invariant and the spawn (if any) is recorded at unobserved count `0`. -/
theorem Inv_start (s : SupState) (o : StartO) (h0 : unobserved s = 0) :
    Inv (start s o).2.1 ∧
      ∀ hn n, Action.spawn hn n ∈ (start s o).2.2 → n = 0 := by
  refine ⟨?_, fun hn n hmem => (start_spawn s o hn n hmem).trans h0⟩
  have h0' : s.alive.length + s.pending.length = 0 := h0
  cases hb : o.buildOk with
  | false =>
    simp only [start, hb, Bool.false_eq_true, if_false]
    exact ⟨by unfold unobserved; omega, fun _ => h0⟩
  | true =>
    cases hsp : o.spawnOk with
    | false =>
      simp only [start, startBinary, hb, hsp, Bool.false_eq_true, if_true, if_false]
      exact ⟨by unfold unobserved; omega, fun _ => h0⟩
    | true =>
      simp only [start, startBinary, hb, hsp, if_true]
      refine ⟨?_, fun hnone => ?_⟩
      · unfold unobserved
        simp only [List.length_cons]
        omega
      · cases hnone

/-- `restart` preserves the invariant, and any spawn it performs happens with
no unobserved handle left. -/
theorem Inv_restart (s : SupState) (o : RestartO) (hInv : Inv s) :
    Inv (restart s o).2.1 ∧
      ∀ hn n, Action.spawn hn n ∈ (restart s o).2.2 → n = 0 := by
  rcases hstop : stop s o.stop with ⟨res, s1, a1⟩
  have hInv1 : Inv s1 := by
    have := Inv_stop s o.stop hInv
    rw [hstop] at this
    exact this
  have hns : ∀ hn n, Action.spawn hn n ∉ a1 := by
    intro hn n hmem
    have := stop_no_spawn s o.stop hn n
    rw [hstop] at this
    exact this hmem
  cases res with
  | error e =>
    simp only [restart, hstop]
    exact ⟨hInv1, fun hn n hmem => absurd hmem (hns hn n)⟩
  | ok u =>
    have h0 : unobserved s1 = 0 := by
      have := stop_ok_unobserved s o.stop hInv (by rw [hstop])
      rw [hstop] at this
      exact this
    rcases hst : start s1 o.start with ⟨res', s2, a2⟩
    have hmain := Inv_start s1 o.start h0
    rw [hst] at hmain
    simp only [restart, hstop, hst]
    refine ⟨hmain.1, fun hn n hmem => ?_⟩
    simp only [List.mem_append] at hmem
    rcases hmem with hmem | hmem
    · exact absurd hmem (hns hn n)
    · exact hmain.2 hn n hmem

/-- The `ctx.Done()` arm never continues the loop. -/
theorem cancelArm_no_next (s : SupState) (o : CancelO) (s' : SupState)
    (a : List Action) : cancelArm s o ≠ .next s' a := by
  rcases hi : s.initErr with _ | e
  · rcases hp : s.pending with _ | ⟨⟨g, r⟩, rest⟩
    · rcases ha : s.alive with _ | ⟨h, t⟩
      · simp [cancelArm, hi, hp, ha]
      · rcases o with r | _ <;> simp [cancelArm, hi, hp, ha]
    · simp [cancelArm, hi, hp]
  · simp [cancelArm, hi]

/-- One loop iteration preserves the invariant, and any spawn is recorded at
unobserved count `0`. -/
theorem Inv_step (s : SupState) (e : Ev) (s' : SupState) (a : List Action)
    (hInv : Inv s) (hstep : step s e = .next s' a) :
    Inv s' ∧ ∀ hn n, Action.spawn hn n ∈ a → n = 0 := by
  obtain ⟨h1, h2⟩ := hInv
  cases e with
  | envExit r =>
    rcases ha : s.alive with _ | ⟨h, t⟩
    · rw [step, ha] at hstep
      cases hstep
      exact ⟨⟨h1, h2⟩, by simp⟩
    · rw [step, ha] at hstep
      cases hstep
      refine ⟨⟨?_, ?_⟩, by simp⟩
      · unfold unobserved at h1 ⊢
        rw [ha] at h1
        simp only [List.length_cons, List.length_append, List.length_nil] at h1 ⊢
        omega
      · intro hnone
        have hcm : s.cmd = none := hnone
        have := h2 hcm
        unfold unobserved at this ⊢
        rw [ha] at this
        simp only [List.length_cons, List.length_append, List.length_nil] at this ⊢
        omega
  | envCancel =>
    rw [step] at hstep
    cases hstep
    refine ⟨⟨h1, h2⟩, fun hn n hmem => ?_⟩
    rcases List.mem_map.1 hmem with ⟨x, _, hx⟩
    cases hx
  | selWrite p o =>
    rw [step] at hstep
    rcases hres : restart s o with ⟨r0, s0, a0⟩
    have hmain := Inv_restart s o ⟨h1, h2⟩
    rw [hres] at hmain
    cases r0 with
    | ok u =>
      rw [hres] at hstep
      cases hstep
      refine ⟨hmain.1, fun hn n hmem => hmain.2 hn n ?_⟩
      simpa using hmem
    | error e0 =>
      rw [hres] at hstep
      cases hstep
      refine ⟨hmain.1, fun hn n hmem => hmain.2 hn n ?_⟩
      simpa using hmem
  | selOther p =>
    rw [step] at hstep
    cases hstep
    exact ⟨⟨h1, h2⟩, by simp⟩
  | selErr =>
    rw [step] at hstep
    cases hstep
    exact ⟨⟨h1, h2⟩, by simp⟩
  | selExit =>
    rcases hp : s.pending with _ | ⟨⟨g, r⟩, rest⟩
    · rw [step, hp] at hstep
      cases hstep
      exact ⟨⟨h1, h2⟩, by simp⟩
    · rw [step, hp] at hstep
      cases hstep
      refine ⟨⟨?_, ?_⟩, by simp⟩
      · unfold unobserved at h1 ⊢
        rw [hp] at h1
        simp only [List.length_cons] at h1 ⊢
        omega
      · intro hnone
        have hcm : s.cmd = none := hnone
        have := h2 hcm
        unfold unobserved at this ⊢
        rw [hp] at this
        simp only [List.length_cons] at this ⊢
        omega
  | selCancel o =>
    rw [step] at hstep
    exact absurd hstep (cancelArm_no_next s o s' a)

/-- Entering the loop establishes the invariant, and the initial spawn (if
any) is recorded at unobserved count `0`. -/
theorem Inv_watchInit (files : List String) (o : WatchO) (s : SupState)
    (a : List Action) (h : watchInit files o = .loop s a) :
    Inv s ∧ ∀ hn n, Action.spawn hn n ∈ a → n = 0 := by
  unfold watchInit at h
  by_cases hnew : o.newOk
  · rw [if_pos hnew] at h
    rcases haa : addAll o.addOk files with e | u <;> rw [haa] at h
    · cases h
    · rcases hst : start initState o.init with ⟨r0, s0, a0⟩
      rw [hst] at h
      have hmain := Inv_start initState o.init rfl
      rw [hst] at hmain
      cases r0 with
      | ok u' =>
        cases h
        exact hmain
      | error e0 =>
        cases h
        refine ⟨⟨hmain.1.1, fun hnone => hmain.1.2 hnone⟩,
          fun hn n hmem => hmain.2 hn n ?_⟩
        simpa using hmem
  · rw [if_neg hnew] at h
    cases h

/-- Every reachable loop state satisfies the invariant. -/
theorem Inv_reachable (s : SupState) (hs : Reachable s) : Inv s := by
  induction hs with
  | init files o s a h => exact (Inv_watchInit files o s a h).1
  | step s e s' a hr hen hst ih => exact (Inv_step s e s' a ih hst).1

/-- **C1.** Single-instance invariant: in every reachable state of the
supervisor loop at most one ProcessHandle exists whose exit notification has
not yet been observed, and `cmd.Start` is only ever issued (both in the loop
and in the initial start) when no previously started process's exit
notification is still pending — every recorded spawn happened at unobserved
count `0`. -/
theorem single_instance_invariant (s : SupState) (hs : Reachable s) :
    unobserved s ≤ 1 ∧
    (∀ e s' a, step s e = .next s' a →
      ∀ hn n, Action.spawn hn n ∈ a → n = 0) ∧
    (∀ files o s₀ a₀, watchInit files o = .loop s₀ a₀ →
      ∀ hn n, Action.spawn hn n ∈ a₀ → n = 0) :=
  ⟨(Inv_reachable s hs).1,
   fun e s' a hst => (Inv_step s e s' a (Inv_reachable s hs) hst).2,
   fun files o s₀ a₀ h => (Inv_watchInit files o s₀ a₀ h).2⟩

/-- Witness for C1 at the concrete state reached by a successful initial
start of a session with no watched files. -/
theorem single_instance_invariant_witness :
    unobserved ⟨some 0, [0], [], 1, false, none⟩ ≤ 1 ∧
    (∀ e s' a, step ⟨some 0, [0], [], 1, false, none⟩ e = .next s' a →
      ∀ hn n, Action.spawn hn n ∈ a → n = 0) ∧
    (∀ files o s₀ a₀, watchInit files o = .loop s₀ a₀ →
      ∀ hn n, Action.spawn hn n ∈ a₀ → n = 0) :=
  single_instance_invariant ⟨some 0, [0], [], 1, false, none⟩
    (Reachable.init [] ⟨true, fun _ => true, ⟨true, true⟩⟩
      ⟨some 0, [0], [], 1, false, none⟩
      [.buildAttempt, .onProcessStart, .spawn 0 0] rfl)

/-- The `ctx.Done()` arm emits no actions. -/
theorem cancelArm_acts (s : SupState) (o : CancelO) : (cancelArm s o).acts = [] := by
  rcases hi : s.initErr with _ | e
  · rcases hp : s.pending with _ | ⟨⟨g, r⟩, rest⟩
    · rcases ha : s.alive with _ | ⟨h, t⟩
      · simp [cancelArm, hi, hp, ha, StepRes.acts]
      · rcases o with r | _ <;> simp [cancelArm, hi, hp, ha, StepRes.acts]
    · simp [cancelArm, hi, hp, StepRes.acts]
  · simp [cancelArm, hi, StepRes.acts]

/-- **C2.** Handling a write-type change event never terminates the loop; it
first logs the modified path and invokes the on-file-change callback, then
runs the restart protocol (`stop`, then `build` + `start`, embodied by
`restart`); a failure of any of those steps is reported via the
on-process-exit callback and logged, after which the loop continues. -/
theorem write_event_protocol (s : SupState) (p : String) (o : RestartO) :
    (step s (.selWrite p o)).isTerm = false ∧
    ∃ s' tail,
      step s (.selWrite p o) = .next s' (.logModified p :: .onFileChange p :: tail) ∧
      ((restart s o).1 = .ok () ∧ s' = (restart s o).2.1 ∧ tail = (restart s o).2.2 ∨
        ∃ e, (restart s o).1 = .error e ∧ s' = (restart s o).2.1 ∧
          tail = (restart s o).2.2 ++ [.onProcessExitErr e, .logRestartErr e]) := by
  rcases hres : restart s o with ⟨r0, s0, a0⟩
  cases r0 with
  | ok u =>
    refine ⟨by simp [step, hres, StepRes.isTerm], s0, a0, by simp [step, hres],
      .inl ⟨by simp, rfl, rfl⟩⟩
  | error e =>
    refine ⟨by simp [step, hres, StepRes.isTerm], s0,
      a0 ++ [.onProcessExitErr e, .logRestartErr e], by simp [step, hres],
      .inr ⟨e, rfl, rfl, rfl⟩⟩

/-- **C3.** A spontaneous exit notification is handled by firing the
on-process-exit callback exactly once with the exit result and logging it;
the loop continues with only that notification consumed, and no `go build`
is ever attempted by any loop step other than the handling of a write-type
change event. -/
theorem spontaneous_exit_no_restart (s : SupState) (hnd : Nat) (r : ExitResult)
    (rest : List (Nat × ExitResult)) (hp : s.pending = (hnd, r) :: rest) :
    step s .selExit =
      .next { s with pending := rest } [.onProcessExitRes r, .logExited r] ∧
    ∀ (s' : SupState) (e : Ev), Action.buildAttempt ∈ (step s' e).acts →
      ∃ p o, e = .selWrite p o := by
  constructor
  · simp [step, hp]
  · intro s' e hmem
    cases e with
    | selWrite p o => exact ⟨p, o, rfl⟩
    | envExit r' =>
      rcases ha : s'.alive with _ | ⟨h, t⟩ <;>
        simp [step, ha, StepRes.acts] at hmem
    | envCancel => simp [step, StepRes.acts] at hmem
    | selOther p => simp [step, StepRes.acts] at hmem
    | selErr => simp [step, StepRes.acts] at hmem
    | selExit =>
      rcases hp' : s'.pending with _ | ⟨⟨g, r'⟩, rest'⟩ <;>
        simp [step, hp', StepRes.acts] at hmem
    | selCancel o =>
      rw [step] at hmem
      rw [cancelArm_acts] at hmem
      simp at hmem

/-- Witness for C3 in a concrete state with one pending exit notification. -/
theorem spontaneous_exit_no_restart_witness :
    step ⟨some 0, [], [(0, .exitError)], 1, false, none⟩ .selExit =
      .next ⟨some 0, [], [], 1, false, none⟩
        [.onProcessExitRes .exitError, .logExited .exitError] ∧
    ∀ (s' : SupState) (e : Ev), Action.buildAttempt ∈ (step s' e).acts →
      ∃ p o, e = .selWrite p o :=
  spontaneous_exit_no_restart ⟨some 0, [], [(0, .exitError)], 1, false, none⟩
    0 .exitError [] rfl

/-- **C10.** A `stop` with no active handle is a success that sends no signal
and consumes nothing, and a `restart` in such a state degenerates to the
`build` + `start` sequence alone. -/
theorem stop_without_handle (s : SupState) (o : RestartO) (h : s.cmd = none) :
    stop s o.stop = (.ok (), s, []) ∧ restart s o = start s o.start := by
  have h1 : stop s o.stop = (.ok (), s, []) := by simp [stop, h]
  refine ⟨h1, ?_⟩
  rcases hst : start s o.start with ⟨r0, s0, a0⟩
  simp [restart, h1, hst]

/-- Witness for C10 in the concrete initial state. -/
theorem stop_without_handle_witness :
    stop ⟨none, [], [], 0, false, none⟩
        (RestartO.mk ⟨true, .ctxCancel⟩ ⟨true, true⟩).stop =
      (.ok (), ⟨none, [], [], 0, false, none⟩, []) ∧
    restart ⟨none, [], [], 0, false, none⟩ (RestartO.mk ⟨true, .ctxCancel⟩ ⟨true, true⟩) =
      start ⟨none, [], [], 0, false, none⟩
        (RestartO.mk ⟨true, .ctxCancel⟩ ⟨true, true⟩).start :=
  stop_without_handle ⟨none, [], [], 0, false, none⟩
    (RestartO.mk ⟨true, .ctxCancel⟩ ⟨true, true⟩) rfl

/-- **C4.** A build-flag list containing `-o`, `--o`, or a flag starting with
`-o=` or `--o=` makes `Run` return the configuration error before the watch
pipeline (registration, build, spawn — all of which live inside `watchInit`)
is ever entered; with none of those flags present, no flag is rejected and
`Run` proceeds into the watch pipeline. -/
theorem output_flag_rejection (flags files : List String) (o : WatchO) :
    ((∃ f ∈ flags, f = "-o" ∨ f = "--o" ∨
        "-o=".data.isPrefixOf f.data = true ∨ "--o=".data.isPrefixOf f.data = true) →
      Run flags files o = .configError) ∧
    ((∀ f ∈ flags, f ≠ "-o" ∧ f ≠ "--o" ∧
        "-o=".data.isPrefixOf f.data = false ∧ "--o=".data.isPrefixOf f.data = false) →
      Run flags files o = .watch (watchInit files o)) := by
  constructor
  · rintro ⟨f, hf, hcase⟩
    have hflag : isOutputFlag f = true := by
      unfold isOutputFlag
      rcases hcase with rfl | rfl | h | h
      · simp
      · simp
      · simp [h]
      · simp [h]
    have hany : flags.any isOutputFlag = true := List.any_eq_true.2 ⟨f, hf, hflag⟩
    simp [Run, hany]
  · intro h
    have hall : flags.any isOutputFlag = false := by
      rw [List.any_eq_false]
      intro f hf
      obtain ⟨h1, h2, h3, h4⟩ := h f hf
      simp [isOutputFlag, h1, h2, h3, h4]
    simp [Run, hall]

/-- Witness for C4: each of the four disallowed forms is rejected, and a
harmless flag is not. -/
theorem output_flag_rejection_witness :
    Run ["-o"] [] ⟨true, fun _ => true, ⟨true, true⟩⟩ = .configError ∧
    Run ["--o"] [] ⟨true, fun _ => true, ⟨true, true⟩⟩ = .configError ∧
    Run ["-o=foo"] [] ⟨true, fun _ => true, ⟨true, true⟩⟩ = .configError ∧
    Run ["--o=foo"] [] ⟨true, fun _ => true, ⟨true, true⟩⟩ = .configError ∧
    Run ["-v"] [] ⟨true, fun _ => true, ⟨true, true⟩⟩ =
      .watch (watchInit [] ⟨true, fun _ => true, ⟨true, true⟩⟩) :=
  ⟨(output_flag_rejection ["-o"] [] _).1 ⟨"-o", by simp, .inl rfl⟩,
   (output_flag_rejection ["--o"] [] _).1 ⟨"--o", by simp, .inr (.inl rfl)⟩,
   (output_flag_rejection ["-o=foo"] [] _).1
     ⟨"-o=foo", by simp, .inr (.inr (.inl (by decide)))⟩,
   (output_flag_rejection ["--o=foo"] [] _).1
     ⟨"--o=foo", by simp, .inr (.inr (.inr (by decide)))⟩,
   (output_flag_rejection ["-v"] [] _).2 (by decide)⟩

/-- **C6.** The contract of `watcher.stop` on an active handle: the interrupt
is recorded whenever it could be delivered; if the exit notification arrives
with any result other than a non-exit wait failure — in particular an
`ExitError` from the intentionally interrupted child — `stop` succeeds; if
cancellation wins the wait, `stop` returns the cancellation as its error with
the state untouched (no kill is ever issued); a `signalErr` arises only from
a failed delivery, a `waitErr` only from receiving a non-exit wait failure,
and every error `stop` can return is one of the two `StopError`s or the
cancellation. -/
theorem stop_contract (s : SupState) (hnd : Nat) (o : StopO)
    (hc : s.cmd = some hnd) :
    (hnd ∈ s.alive → o.sigOk = true → Action.signal hnd ∈ (stop s o).2.2) ∧
    (∀ r, hnd ∈ s.alive → o.sigOk = true → o.wait = .exitArrives r →
      s.pending = [] → r ≠ .waitError → (stop s o).1 = .ok ()) ∧
    (hnd ∈ s.alive → o.sigOk = true → o.wait = .ctxCancel →
      stop s o = (.error .cancelled, s, [.signal hnd])) ∧
    ((stop s o).1 = .error .signalErr → ¬(hnd ∈ s.alive ∧ o.sigOk = true)) ∧
    ((stop s o).1 = .error .waitErr →
      (∃ g rest, s.pending = (g, ExitResult.waitError) :: rest) ∨
        (s.pending = [] ∧ o.wait = .exitArrives .waitError)) ∧
    (∀ e, (stop s o).1 = .error e → e.isStop = true ∨ e = .cancelled) := by
  rcases stop_cases s o with ⟨hcmd, he⟩ | ⟨h, hcmd, hna, he⟩ | ⟨h, hcmd, hm, hsg, hw, he⟩
    | ⟨h, r, g, rg, rest, hcmd, hm, hsg, hw, hp, ⟨hrg, he⟩ | ⟨hrg, he⟩⟩
    | ⟨h, r, hcmd, hm, hsg, hw, hp, ⟨hr, he⟩ | ⟨hr, he⟩⟩
  · rw [hc] at hcmd
    cases hcmd
  · rw [hc] at hcmd
    obtain rfl : hnd = h := Option.some.inj hcmd
    refine ⟨?_, ?_, ?_, ?_, ?_, ?_⟩
    · intro hm hsg
      exact absurd ⟨hm, hsg⟩ hna
    · intro r hm hsg _ _ _
      exact absurd ⟨hm, hsg⟩ hna
    · intro hm hsg _
      exact absurd ⟨hm, hsg⟩ hna
    · intro _
      exact hna
    · rw [he]
      intro hh
      simp at hh
    · intro e heq
      rw [he] at heq
      cases heq
      exact .inl rfl
  · rw [hc] at hcmd
    obtain rfl : hnd = h := Option.some.inj hcmd
    refine ⟨?_, ?_, ?_, ?_, ?_, ?_⟩
    · intro _ _
      rw [he]
      simp
    · intro r _ _ hw' _ _
      rw [hw] at hw'
      cases hw'
    · intro _ _ _
      exact he
    · rw [he]
      intro hh
      simp at hh
    · rw [he]
      intro hh
      simp at hh
    · intro e heq
      rw [he] at heq
      cases heq
      exact .inr rfl
  · rw [hc] at hcmd
    obtain rfl : hnd = h := Option.some.inj hcmd
    refine ⟨?_, ?_, ?_, ?_, ?_, ?_⟩
    · intro _ _
      rw [he]
      simp
    · intro r' _ _ _ hpnil _
      rw [hp] at hpnil
      cases hpnil
    · intro _ _ hwc
      rw [hw] at hwc
      cases hwc
    · rw [he]
      intro hh
      simp at hh
    · intro _
      exact .inl ⟨g, rest, by rw [hp, hrg]⟩
    · intro e heq
      rw [he] at heq
      cases heq
      exact .inl rfl
  · rw [hc] at hcmd
    obtain rfl : hnd = h := Option.some.inj hcmd
    refine ⟨?_, ?_, ?_, ?_, ?_, ?_⟩
    · intro _ _
      rw [he]
      simp
    · intro r' _ _ _ hpnil _
      rw [hp] at hpnil
      cases hpnil
    · intro _ _ hwc
      rw [hw] at hwc
      cases hwc
    · rw [he]
      intro hh
      simp at hh
    · rw [he]
      intro hh
      simp at hh
    · intro e heq
      rw [he] at heq
      simp at heq
  · rw [hc] at hcmd
    obtain rfl : hnd = h := Option.some.inj hcmd
    refine ⟨?_, ?_, ?_, ?_, ?_, ?_⟩
    · intro _ _
      rw [he]
      simp
    · intro r' _ _ hw' _ hne
      rw [hw] at hw'
      cases hw'
      exact absurd hr hne
    · intro _ _ hwc
      rw [hw] at hwc
      cases hwc
    · rw [he]
      intro hh
      simp at hh
    · intro _
      exact .inr ⟨hp, by rw [hw, hr]⟩
    · intro e heq
      rw [he] at heq
      cases heq
      exact .inl rfl
  · rw [hc] at hcmd
    obtain rfl : hnd = h := Option.some.inj hcmd
    refine ⟨?_, ?_, ?_, ?_, ?_, ?_⟩
    · intro _ _
      rw [he]
      simp
    · intro r' _ _ _ _ _
      rw [he]
    · intro _ _ hwc
      rw [hw] at hwc
      cases hwc
    · rw [he]
      intro hh
      simp at hh
    · rw [he]
      intro hh
      simp at hh
    · intro e heq
      rw [he] at heq
      simp at heq

/-- Witness for C6 in a concrete state with one running handle whose graceful
stop is interrupted by cancellation. -/
theorem stop_contract_witness :
    ((0 : Nat) ∈ [0] → true = true →
      Action.signal 0 ∈ (stop ⟨some 0, [0], [], 1, true, none⟩ ⟨true, .ctxCancel⟩).2.2) ∧
    (∀ r, (0 : Nat) ∈ [0] → true = true → StopWaitO.ctxCancel = .exitArrives r →
      ([] : List (Nat × ExitResult)) = [] → r ≠ .waitError →
      (stop ⟨some 0, [0], [], 1, true, none⟩ ⟨true, .ctxCancel⟩).1 = .ok ()) ∧
    ((0 : Nat) ∈ [0] → true = true → StopWaitO.ctxCancel = .ctxCancel →
      stop ⟨some 0, [0], [], 1, true, none⟩ ⟨true, .ctxCancel⟩ =
        (.error .cancelled, ⟨some 0, [0], [], 1, true, none⟩, [.signal 0])) ∧
    ((stop ⟨some 0, [0], [], 1, true, none⟩ ⟨true, .ctxCancel⟩).1 = .error .signalErr →
      ¬((0 : Nat) ∈ [0] ∧ true = true)) ∧
    ((stop ⟨some 0, [0], [], 1, true, none⟩ ⟨true, .ctxCancel⟩).1 = .error .waitErr →
      (∃ g rest, ([] : List (Nat × ExitResult)) = (g, ExitResult.waitError) :: rest) ∨
        (([] : List (Nat × ExitResult)) = [] ∧
          StopWaitO.ctxCancel = .exitArrives .waitError)) ∧
    (∀ e, (stop ⟨some 0, [0], [], 1, true, none⟩ ⟨true, .ctxCancel⟩).1 = .error e →
      e.isStop = true ∨ e = .cancelled) :=
  stop_contract ⟨some 0, [0], [], 1, true, none⟩ 0 ⟨true, .ctxCancel⟩ rfl

/-- Registering every path succeeds when each `watcher.Add` succeeds. -/
theorem addAll_ok (ok : String → Bool) (files : List String)
    (h : ∀ f ∈ files, ok f = true) : addAll ok files = .ok () := by
  induction files with
  | nil => rfl
  | cons g t ih =>
    rw [addAll, if_pos (h g (List.mem_cons_self g t))]
    exact ih fun f hf => h f (List.mem_cons_of_mem g hf)

/-- A failing registration surfaces the first failing path as the error. -/
theorem addAll_error (ok : String → Bool) (files : List String)
    (f : String) (hf : f ∈ files) (hfail : ok f = false) :
    ∃ f₀ ∈ files, ok f₀ = false ∧ addAll ok files = .error (.addErr f₀) := by
  induction files with
  | nil => cases hf
  | cons g t ih =>
    by_cases hg : ok g = true
    · have hft : f ∈ t := by
        rcases List.mem_cons.1 hf with rfl | hmem
        · rw [hg] at hfail
          cases hfail
        · exact hmem
      rcases ih hft with ⟨f₀, hf₀, hfl, he⟩
      exact ⟨f₀, List.mem_cons_of_mem g hf₀, hfl, by rw [addAll, if_pos hg]; exact he⟩
    · have hg' : ok g = false := by
        cases hgv : ok g
        · rfl
        · exact absurd hgv hg
      exact ⟨g, List.mem_cons_self g t, hg', by rw [addAll, if_neg hg]⟩

/-- `start` attempts the build exactly once per call. -/
theorem start_build_once (s : SupState) (o : StartO) :
    ((start s o).2.2).count Action.buildAttempt = 1 := by
  cases hb : o.buildOk <;> cases hsp : o.spawnOk <;>
    simp [start, startBinary, hb, hsp, List.count_cons]

/-- A failed `start` leaves the state exactly as it found it: in particular
no handle is installed. -/
theorem start_error_state (s : SupState) (o : StartO) (e : SupError)
    (h : (start s o).1 = .error e) : (start s o).2.1 = s := by
  cases hb : o.buildOk <;> cases hsp : o.spawnOk <;>
    simp [start, startBinary, hb, hsp] at h ⊢

/-- **C7.** Once registration succeeds, the supervisor attempts the
build-and-start sequence exactly once before entering the event loop; if it
fails, the session still enters the loop (it does not abort), with no handle
installed and no process alive, the error reported via on-process-exit and
logged, and the loop's `err` variable remembering it. -/
theorem initial_start_once (files : List String) (o : WatchO)
    (hnew : o.newOk = true) (hadd : ∀ f ∈ files, o.addOk f = true) :
    ∃ s a, watchInit files o = .loop s a ∧
      a.count Action.buildAttempt = 1 ∧
      ((start initState o.init).1 = .ok () ∨
        ∃ e, (start initState o.init).1 = .error e ∧ s.cmd = none ∧ s.alive = [] ∧
          s.initErr = some e ∧ Action.onProcessExitErr e ∈ a ∧
          Action.logStartErr e ∈ a) := by
  unfold watchInit
  rw [if_pos hnew, addAll_ok o.addOk files hadd]
  rcases hst : start initState o.init with ⟨r0, s0, a0⟩
  have hcount := start_build_once initState o.init
  rw [hst] at hcount
  cases r0 with
  | ok u =>
    exact ⟨s0, a0, rfl, hcount, .inl rfl⟩
  | error e =>
    have hs0 : s0 = initState := by
      have := start_error_state initState o.init e (by rw [hst])
      rw [hst] at this
      exact this
    subst hs0
    refine ⟨_, _, rfl, ?_, .inr ⟨e, rfl, rfl, rfl, rfl, by simp, by simp⟩⟩
    simp only [List.count_append]
    rw [hcount]
    rfl

/-- Witness for C7 with one registered file and a failing initial build. -/
theorem initial_start_once_witness :
    ∃ s a, watchInit ["main.go"] ⟨true, fun _ => true, ⟨false, true⟩⟩ = .loop s a ∧
      a.count Action.buildAttempt = 1 ∧
      ((start initState (⟨false, true⟩ : StartO)).1 = .ok () ∨
        ∃ e, (start initState (⟨false, true⟩ : StartO)).1 = .error e ∧
          s.cmd = none ∧ s.alive = [] ∧ s.initErr = some e ∧
          Action.onProcessExitErr e ∈ a ∧ Action.logStartErr e ∈ a) :=
  initial_start_once ["main.go"] ⟨true, fun _ => true, ⟨false, true⟩⟩ rfl
    (fun _ _ => rfl)

/-- **C8.** Registration of every watched path happens before the first build
or any event consumption: if every registration succeeds the session enters
the loop, and if any registration fails the session aborts with the error of
the first failing path, before any process is started (an aborted session
performs no actions at all). -/
theorem watch_registration (files : List String) (o : WatchO)
    (hnew : o.newOk = true) :
    ((∀ f ∈ files, o.addOk f = true) → ∃ s a, watchInit files o = .loop s a) ∧
    (∀ f ∈ files, o.addOk f = false →
      ∃ f₀ ∈ files, o.addOk f₀ = false ∧
        watchInit files o = .aborted (.addErr f₀)) := by
  constructor
  · intro hadd
    unfold watchInit
    rw [if_pos hnew, addAll_ok o.addOk files hadd]
    rcases hst : start initState o.init with ⟨r0, s0, a0⟩
    cases r0 <;> exact ⟨_, _, rfl⟩
  · intro f hf hfail
    rcases addAll_error o.addOk files f hf hfail with ⟨f₀, hf₀, hfl, he⟩
    refine ⟨f₀, hf₀, hfl, ?_⟩
    unfold watchInit
    rw [if_pos hnew, he]

/-- Witness for C8: both conjuncts applied to concrete sessions. -/
theorem watch_registration_witness :
    (∃ s a, watchInit ["a.go"] ⟨true, fun _ => true, ⟨true, true⟩⟩ = .loop s a) ∧
    ∃ f₀ ∈ ["a.go"], (fun _ => false) f₀ = false ∧
      watchInit ["a.go"] ⟨true, fun _ => false, ⟨true, true⟩⟩ =
        .aborted (.addErr f₀) :=
  ⟨(watch_registration ["a.go"] ⟨true, fun _ => true, ⟨true, true⟩⟩ rfl).1
      (fun f _ => rfl),
   (watch_registration ["a.go"] ⟨true, fun _ => false, ⟨true, true⟩⟩ rfl).2
      "a.go" (by simp) rfl⟩

/-- **C5** (divergence witness).  A state in which the initial start
succeeded, the child then exited spontaneously and the supervisor consumed
the exit notification, and cancellation has since fired, is reachable; in
that state the `ctx.Done()` arm blocks forever on `<-w.exitChan` (no
goroutine can ever send), so cancellation is not terminal there — contrary
to the specified cancellation contract. -/
theorem cancellation_deadlock :
    Reachable ⟨some 0, [], [], 1, true, none⟩ ∧
    ∀ o : CancelO,
      step ⟨some 0, [], [], 1, true, none⟩ (.selCancel o) = .blocked [] := by
  constructor
  · have h0 : Reachable ⟨some 0, [0], [], 1, false, none⟩ :=
      Reachable.init [] ⟨true, fun _ => true, ⟨true, true⟩⟩ _ _ rfl
    have h1 : Reachable ⟨some 0, [], [(0, .exitError)], 1, false, none⟩ :=
      Reachable.step _ (.envExit .exitError) _ _ h0 rfl rfl
    have h2 : Reachable ⟨some 0, [], [], 1, false, none⟩ :=
      Reachable.step _ .selExit _ _ h1 rfl rfl
    exact Reachable.step _ .envCancel _ _ h2 rfl rfl
  · intro o
    rfl

/-! ## The file-set resolver of src/watcher2/watcher2.go

`getFiles` walks directory trees.  A snapshot of the file system is an
`Entry` tree; `os.Stat` and `os.ReadDir` are resolved against it.  Path
arithmetic is `filepath.Join` restricted to plain entry names (no separators
or dot segments inside a name), for which `Join(".", b) = b` and
`Join(a, b) = a ++ "/" ++ b`, and `filepath.Ext`, which returns the suffix of
the final slash-separated element starting at its last dot. -/

/-- A file-system entry: a plain file or a directory with its listing. -/
inductive Entry where
  | file (name : String)
  | dir (name : String) (entries : List Entry)

/-- The name under which an entry appears in its parent directory. -/
def Entry.name : Entry → String
  | .file n => n
  | .dir n _ => n

/-- Scan of the reversed character list for `filepath.Ext`: stop at a slash
with no extension, or return the accumulated suffix at the first dot. -/
def extLoop : List Char → List Char → String
  | [], _ => ""
  | c :: rest, acc =>
    if c = '/' then ""
    else if c = '.' then String.mk ('.' :: acc)
    else extLoop rest (c :: acc)

/-- `filepath.Ext`. -/
def ext (s : String) : String := extLoop s.data.reverse []

/-- `filepath.Join` for two clean components. -/
def pjoin (a b : String) : String := if a = "." then b else a ++ "/" ++ b

mutual

/-- One iteration of the `for _, df := range dirFiles` loop of `getFiles`
(src/watcher2/watcher2.go:240-258): an entry named `.git` is skipped; a
subdirectory is walked through the recursive `getFiles([]string{innerDir})`
call, whose prelude skips the path when it is (literally) `vendor` and
vendor watching is off; a file is kept when its extension is `.go` or
`goFiles` is off. -/
def entryFiles (pathName : String) (vendor goFiles : Bool) (e : Entry) : List String :=
  if e.name == ".git" then []
  else
    match e with
    | .file n => if goFiles && !(ext n == ".go") then [] else [pjoin pathName n]
    | .dir n cs =>
      if !vendor && pjoin pathName n == "vendor" then []
      else getFilesDir (pjoin pathName n) vendor goFiles cs

/-- The `os.ReadDir` walk of `getFiles` over a directory listing, appending
each entry's contribution in listing order
(src/watcher2/watcher2.go:236-259). -/
def getFilesDir (pathName : String) (vendor goFiles : Bool) : List Entry → List String
  | [] => []
  | e :: rest =>
    entryFiles pathName vendor goFiles e ++ getFilesDir pathName vendor goFiles rest

end

/-- `getFiles` on a single path that `os.Stat` resolves to `e`
(src/watcher2/watcher2.go:219-261): the `vendor` path prelude, then the
non-directory shortcut (extension check against the whole path) or the
directory walk. -/
def getFiles1 (pathName : String) (e : Entry) (vendor goFiles : Bool) : List String :=
  if !vendor && pathName == "vendor" then []
  else
    match e with
    | .file _ => if goFiles && !(ext pathName == ".go") then [] else [pathName]
    | .dir _ cs => getFilesDir pathName vendor goFiles cs

/-- `getFiles` over its whole path-list argument, each path resolved by the
supplied stat snapshot. -/
def getFiles : List (String × Entry) → Bool → Bool → List String
  | [], _, _ => []
  | (p, e) :: rest, vendor, goFiles =>
    getFiles1 p e vendor goFiles ++ getFiles rest vendor goFiles

/-- The inner `for _, el := range slc` loop of `uniq`
(src/watcher2/watcher2.go:207-215): `mp` is the membership map, `final` the
output in first-occurrence order. -/
def uniqInto (mp final : List String) : List String → List String × List String
  | [] => (mp, final)
  | el :: rest =>
    if el ∈ mp then uniqInto mp final rest
    else uniqInto (el :: mp) (final ++ [el]) rest

/-- The outer `for _, slc := range slices` loop of `uniq`. -/
def uniqSlices (mp final : List String) : List (List String) → List String × List String
  | [] => (mp, final)
  | slc :: rest =>
    match uniqInto mp final slc with
    | (mp', final') => uniqSlices mp' final' rest

/-- `uniq` (src/watcher2/watcher2.go:204-217). -/
def uniq (slices : List (List String)) : List String := (uniqSlices [] [] slices).2

/-- `getUniqueFiles` (src/watcher2/watcher2.go:192-202): the go-file walk
and the non-go-file walk, deduplicated. -/
def getUniqueFiles (goRoots nonGoRoots : List (String × Entry)) (vendor : Bool) :
    List String :=
  uniq [getFiles goRoots vendor true, getFiles nonGoRoots vendor false]

/-- Invariant of the inner `uniq` loop: the output stays duplicate-free and
covered by the membership map. -/
theorem uniqInto_spec (l : List String) :
    ∀ mp final, final.Nodup → (∀ x ∈ final, x ∈ mp) →
      ((uniqInto mp final l).2.Nodup ∧
        ∀ x ∈ (uniqInto mp final l).2, x ∈ (uniqInto mp final l).1) := by
  induction l with
  | nil => exact fun mp final h1 h2 => ⟨h1, h2⟩
  | cons el rest ih =>
    intro mp final h1 h2
    by_cases hel : el ∈ mp
    · rw [uniqInto, if_pos hel]
      exact ih mp final h1 h2
    · rw [uniqInto, if_neg hel]
      refine ih (el :: mp) (final ++ [el]) ?_ ?_
      · rw [List.nodup_append]
        refine ⟨h1, List.nodup_singleton el, ?_⟩
        intro x hx hmem
        rw [List.mem_singleton] at hmem
        exact hel (hmem ▸ h2 x hx)
      · intro x hx
        rcases List.mem_append.1 hx with hx | hx
        · exact List.mem_cons_of_mem el (h2 x hx)
        · rw [List.mem_singleton] at hx
          rw [hx]
          exact List.mem_cons_self el mp

/-- Invariant of the outer `uniq` loop. -/
theorem uniqSlices_spec (slices : List (List String)) :
    ∀ mp final, final.Nodup → (∀ x ∈ final, x ∈ mp) →
      ((uniqSlices mp final slices).2.Nodup ∧
        ∀ x ∈ (uniqSlices mp final slices).2, x ∈ (uniqSlices mp final slices).1) := by
  induction slices with
  | nil => exact fun mp final h1 h2 => ⟨h1, h2⟩
  | cons slc rest ih =>
    intro mp final h1 h2
    rcases hstep : uniqInto mp final slc with ⟨mp', final'⟩
    have hspec := uniqInto_spec slc mp final h1 h2
    rw [hstep] at hspec
    rw [uniqSlices, hstep]
    exact ih mp' final' hspec.1 hspec.2

/-- The output of `uniq` never contains duplicates. -/
theorem uniq_nodup (slices : List (List String)) : (uniq slices).Nodup :=
  (uniqSlices_spec slices [] [] List.nodup_nil (fun x hx => absurd hx (List.not_mem_nil x))).1

/-- The walk distributes over a split of the directory listing. -/
theorem getFilesDir_append (p : String) (v g : Bool) (l1 l2 : List Entry) :
    getFilesDir p v g (l1 ++ l2) = getFilesDir p v g l1 ++ getFilesDir p v g l2 := by
  induction l1 with
  | nil => simp [getFilesDir]
  | cons e rest ih =>
    simp only [List.cons_append, getFilesDir, List.append_eq, ih, List.append_assoc]

/-- Reordering a directory listing only permutes the walk's output: the
resolved set does not depend on the order `os.ReadDir` reports entries. -/
theorem getFilesDir_perm (p : String) (v g : Bool) {l1 l2 : List Entry}
    (h : l1.Perm l2) : (getFilesDir p v g l1).Perm (getFilesDir p v g l2) := by
  induction h with
  | nil => exact .refl _
  | cons x h ih =>
    simp only [getFilesDir]
    exact ih.append_left (entryFiles p v g x)
  | swap x y l =>
    simp only [getFilesDir]
    exact List.perm_append_comm_assoc _ _ _
  | trans h1 h2 ih1 ih2 => exact ih1.trans ih2

/-- An entry listed as `.git` contributes nothing to the walk. -/
theorem entryFiles_git (p : String) (v g : Bool) (c : Entry)
    (hc : c.name = ".git") : entryFiles p v g c = [] := by
  cases c <;> simp_all [entryFiles, Entry.name]

/-- Dropping a `.git` entry anywhere in a directory listing does not change
the walk's output. -/
theorem getFilesDir_git (p : String) (v g : Bool) (l1 l2 : List Entry)
    (c : Entry) (hc : c.name = ".git") :
    getFilesDir p v g (l1 ++ c :: l2) = getFilesDir p v g (l1 ++ l2) := by
  rw [getFilesDir_append, getFilesDir_append]
  have hcons : getFilesDir p v g (c :: l2) =
      entryFiles p v g c ++ getFilesDir p v g l2 := by
    simp only [getFilesDir]
  rw [hcons, entryFiles_git p v g c hc, List.nil_append]

/-- A path that is literally `vendor` resolves to nothing when vendor
watching is off, whatever it stats to. -/
theorem getFiles1_vendor_path (e : Entry) (g : Bool) :
    getFiles1 "vendor" e false g = [] := by
  simp [getFiles1]

/-- A `vendor` subdirectory of the root `.` (resolved path exactly `vendor`)
is skipped by the walk when vendor watching is off. -/
theorem getFilesDir_vendor_root (g : Bool) (cs l1 l2 : List Entry) :
    getFilesDir "." false g (l1 ++ Entry.dir "vendor" cs :: l2) =
      getFilesDir "." false g (l1 ++ l2) := by
  rw [getFilesDir_append, getFilesDir_append]
  have hcons : getFilesDir "." false g (Entry.dir "vendor" cs :: l2) =
      entryFiles "." false g (Entry.dir "vendor" cs) ++ getFilesDir "." false g l2 := by
    simp only [getFilesDir]
  rw [hcons]
  have hv : entryFiles "." false g (Entry.dir "vendor" cs) = [] := by
    simp [entryFiles, Entry.name, pjoin]
  rw [hv, List.nil_append]

/-- With vendor watching on, the same `vendor` subdirectory of `.` is
walked. -/
theorem entryFiles_vendor_included (g : Bool) (cs : List Entry) :
    entryFiles "." true g (Entry.dir "vendor" cs) =
      getFilesDir "vendor" true g cs := by
  simp [entryFiles, Entry.name, pjoin]

/-- **C9 (amended).** The resolver's output set is deterministic — reordering
any directory listing only permutes the output — and the deduplicated
WatchSet contains no duplicates; `.git` entries encountered during the walk
are excluded; and a vendor directory is excluded exactly when its resolved
path is literally `vendor` (e.g. a top-level `vendor` under `.`) and vendor
inclusion is off, while with vendor inclusion on it is walked.  (Dotfiles
other than `.git`, and nested vendor subtrees, are not excluded — see the
counterexample.) -/
theorem file_set_amended :
    (∀ goRoots nonGoRoots vendor,
      (getUniqueFiles goRoots nonGoRoots vendor).Nodup) ∧
    (∀ (p : String) (v g : Bool) (l1 l2 : List Entry), l1.Perm l2 →
      (getFilesDir p v g l1).Perm (getFilesDir p v g l2)) ∧
    (∀ (p : String) (v g : Bool) (l1 l2 : List Entry) (c : Entry),
      c.name = ".git" →
      getFilesDir p v g (l1 ++ c :: l2) = getFilesDir p v g (l1 ++ l2)) ∧
    (∀ (e : Entry) (g : Bool), getFiles1 "vendor" e false g = []) ∧
    (∀ (g : Bool) (cs l1 l2 : List Entry),
      getFilesDir "." false g (l1 ++ Entry.dir "vendor" cs :: l2) =
        getFilesDir "." false g (l1 ++ l2)) ∧
    (∀ (g : Bool) (cs : List Entry),
      entryFiles "." true g (Entry.dir "vendor" cs) =
        getFilesDir "vendor" true g cs) :=
  ⟨fun _ _ _ => uniq_nodup _,
   fun p v g _ _ h => getFilesDir_perm p v g h,
   getFilesDir_git, getFiles1_vendor_path, getFilesDir_vendor_root,
   entryFiles_vendor_included⟩

/-- Witness for the amended C9 on concrete trees. -/
theorem file_set_amended_witness :
    (getUniqueFiles [(".", Entry.dir "x" [Entry.file "a.go"])] [] false).Nodup ∧
    (getFilesDir "." false true [Entry.file "a.go", Entry.file "b.go"]).Perm
      (getFilesDir "." false true [Entry.file "b.go", Entry.file "a.go"]) ∧
    getFilesDir "." false true
        ([Entry.file "a.go"] ++ Entry.dir ".git" [Entry.file "c.go"] :: []) =
      getFilesDir "." false true ([Entry.file "a.go"] ++ []) ∧
    getFiles1 "vendor" (Entry.file "v.go") false true = [] :=
  ⟨file_set_amended.1 [(".", Entry.dir "x" [Entry.file "a.go"])] [] false,
   file_set_amended.2.1 "." false true _ _
     (List.Perm.swap (Entry.file "b.go") (Entry.file "a.go") []),
   file_set_amended.2.2.1 "." false true [Entry.file "a.go"] []
     (Entry.dir ".git" [Entry.file "c.go"]) rfl,
   file_set_amended.2.2.2.1 (Entry.file "v.go") true⟩

/-- **C9 (counterexample).** On a concrete tree containing the dotfile
`.a.go` and a nested `sub/vendor/v.go`, with vendor inclusion off, the
resolver keeps both: the claimed exclusion of dotfiles and of vendored
subtrees is false of `getFiles`. -/
theorem file_set_counterexample :
    getFiles1 "."
        (.dir "root" [.file ".a.go", .dir "sub" [.dir "vendor" [.file "v.go"]]])
        false true = [".a.go", "sub/vendor/v.go"] ∧
    (".a.go").data.head? = some '.' ∧
    ".a.go" ∈ getFiles1 "."
        (.dir "root" [.file ".a.go", .dir "sub" [.dir "vendor" [.file "v.go"]]])
        false true ∧
    "sub/vendor/v.go" ∈ getFiles1 "."
        (.dir "root" [.file ".a.go", .dir "sub" [.dir "vendor" [.file "v.go"]]])
        false true :=
  ⟨by decide, by decide, by decide, by decide⟩

end GoWatch
